import Mathlib

/-!
Verification of the axia-evals scoring core: a shallow embedding of
`src/eval_handwriting.py` and `src/eval_sroie2019.py` (field evaluators,
extraction-client response handling, report ordering), together with an
embedding of the parts of the Python standard library the evaluators call
(`difflib.SequenceMatcher.ratio`, `str.replace`/`strip`, `float()` on plain
decimal literals, `str.split('-')`).

Strings are carried as `List Char`; Python floats are modelled as exact
rationals (`ℚ`); Python exceptions are modelled with `Except`.
-/

namespace AxiaEvals

/-! ## Python value model

JSON-ish values appearing in the output / expected-output mappings:
strings, numbers, and `null`.  A mapping is an association list; lookup of
a key takes the first binding, `lookupKey d k = none` models a missing key. -/

inductive Val where
  | vstr (s : String)
  | vnum (q : ℚ)
  | vnull
deriving DecidableEq

abbrev Dict := List (String × Val)

def lookupKey (d : Dict) (k : String) : Option Val :=
  match d with
  | [] => none
  | (k', v) :: rest => if k' = k then some v else lookupKey rest k

/-- Python `d.get(k) is None`: true when the key is absent or bound to `None`. -/
def isNoneAt (d : Dict) (k : String) : Bool :=
  match lookupKey d k with
  | none => true
  | some .vnull => true
  | some _ => false

/-- The value at a key, used after an `is None` guard has ruled out absence. -/
def valAt (d : Dict) (k : String) : Val :=
  (lookupKey d k).getD Val.vnull

/-- Python truthiness of a value (`if not result:` in NameEvaluator). -/
def isFalsy : Val → Bool
  | .vstr s => s.isEmpty
  | .vnum q => q = 0
  | .vnull => true

/-- Python exceptions that the evaluators can raise or catch. -/
inductive PyErr where
  | keyError
  | attributeError
  | typeError
  | connectionError
deriving DecidableEq

/-- Python `value.upper()`: succeeds on strings (modelled with
`Char.toUpper` per character), raises `AttributeError` otherwise. -/
def upperVal : Val → Except PyErr (List Char)
  | .vstr s => .ok (s.toList.map Char.toUpper)
  | _ => .error .attributeError

/-- Case-folded character list of a string. -/
def upperL (s : String) : List Char :=
  s.toList.map Char.toUpper

/-! ## difflib.SequenceMatcher (Python 3 standard library)

Embedding of `SequenceMatcher(None, a, b).ratio()` as called by the
evaluators: `isjunk` is `None` (so the junk set `bjunk` is empty and the
junk-extension loops of `find_longest_match` never fire) and `autojunk`
is the default `True` (elements of `b` occurring more than
`len(b)//100 + 1` times are dropped from `b2j` when `len(b) >= 200`). -/

namespace Difflib

/-- Ascending list of the indices at which `c` occurs in `b`
(the `b2j` chains built by `__chain_b`). -/
def positions (b : List Char) (c : Char) : List Nat :=
  (List.range b.length).filter fun i => b.get? i = some c

/-- The autojunk rule of `__chain_b`: with `autojunk=True`, elements of `b`
occurring more than `len(b) // 100 + 1` times are "popular" when
`len(b) >= 200`. -/
def isPopular (b : List Char) (c : Char) : Bool :=
  decide (200 ≤ b.length) && decide (b.length / 100 + 1 < b.count c)

/-- `b2j.get(c, [])` after popular elements have been purged. -/
def b2j (b : List Char) (c : Char) : List Nat :=
  if isPopular b c then [] else positions b c

structure Match3 where
  besti : Nat
  bestj : Nat
  size : Nat
deriving DecidableEq

/-- Python `range(alo, alo + cnt)` as a list. -/
def rows : Nat → Nat → List Nat
  | _, 0 => []
  | s, cnt + 1 => s :: rows (s + 1) cnt

/-- Inner loop of `find_longest_match` at row `i`: walk the (ascending,
range-filtered) occurrence list of `a[i]` in `b`, reading the previous
row's `j2len` (`old`) and building the new one (`acc`), updating the best
block on a strictly longer diagonal chain.  `k = j2len.get(j-1, 0) + 1`,
and on `k > bestsize` the best becomes `(i-k+1, j-k+1, k)`. -/
def innerLoop (i : Nat) (old : Nat → Nat) :
    List Nat → Match3 → (Nat → Nat) → Match3 × (Nat → Nat)
  | [], st, acc => (st, acc)
  | j :: js, st, acc =>
    let k := (if j = 0 then 0 else old (j - 1)) + 1
    let st' := if st.size < k then ⟨i + 1 - k, j + 1 - k, k⟩ else st
    innerLoop i old js st' (fun x => if x = j then k else acc x)

/-- Outer loop of `find_longest_match` over the rows `range(alo, ahi)`;
the `j < blo: continue` / `j >= bhi: break` guards of the inner loop are
a filter of the ascending occurrence list. -/
def mainLoop (a b : List Char) (blo bhi : Nat) :
    List Nat → Match3 → (Nat → Nat) → Match3
  | [], st, _ => st
  | i :: is', st, j2len =>
    let js := (b2j b (a.getD i ' ')).filter fun j => decide (blo ≤ j) && decide (j < bhi)
    let r := innerLoop i j2len js st (fun _ => 0)
    mainLoop a b blo bhi is' r.1 r.2

/-- Backward non-junk extension of the best block
(`while besti > alo and bestj > blo and a[besti-1] == b[bestj-1]`;
the `isbjunk` tests are vacuous since `bjunk` is empty).
The fuel is instantiated with `besti`, which bounds the iteration count. -/
def extendBack (a b : List Char) (alo blo : Nat) : Nat → Match3 → Match3
  | 0, st => st
  | fuel + 1, st =>
    if alo < st.besti ∧ blo < st.bestj ∧
        a.getD (st.besti - 1) ' ' = b.getD (st.bestj - 1) ' ' then
      extendBack a b alo blo fuel ⟨st.besti - 1, st.bestj - 1, st.size + 1⟩
    else st

/-- Forward non-junk extension
(`while besti+bestsize < ahi and bestj+bestsize < bhi and a[...] == b[...]`).
The fuel is instantiated with `ahi`, which bounds the iteration count. -/
def extendFwd (a b : List Char) (ahi bhi : Nat) : Nat → Match3 → Match3
  | 0, st => st
  | fuel + 1, st =>
    if st.besti + st.size < ahi ∧ st.bestj + st.size < bhi ∧
        a.getD (st.besti + st.size) ' ' = b.getD (st.bestj + st.size) ' ' then
      extendFwd a b ahi bhi fuel ⟨st.besti, st.bestj, st.size + 1⟩
    else st

/-- `find_longest_match(alo, ahi, blo, bhi)` with empty junk set. -/
def findLongestMatch (a b : List Char) (alo ahi blo bhi : Nat) : Match3 :=
  let st1 := mainLoop a b blo bhi (rows alo (ahi - alo)) ⟨alo, blo, 0⟩ (fun _ => 0)
  let st2 := extendBack a b alo blo st1.besti st1
  extendFwd a b ahi bhi ahi st2

/-- The recursion of `get_matching_blocks` (Python drives it with an
explicit queue; the collected set of blocks, hence the total match count,
is the same).  The fuel, instantiated with `la + lb + 1`, dominates the
recursion depth since every recursive call strictly shrinks an interval. -/
def matchingBlocksAux (a b : List Char) :
    Nat → Nat → Nat → Nat → Nat → List Match3
  | 0, _, _, _, _ => []
  | fuel + 1, alo, ahi, blo, bhi =>
    let m := findLongestMatch a b alo ahi blo bhi
    if m.size = 0 then []
    else
      (if alo < m.besti ∧ blo < m.bestj then
        matchingBlocksAux a b fuel alo m.besti blo m.bestj
       else []) ++
      m ::
      (if m.besti + m.size < ahi ∧ m.bestj + m.size < bhi then
        matchingBlocksAux a b fuel (m.besti + m.size) ahi (m.bestj + m.size) bhi
       else [])

/-- `sum(triple[-1] for triple in self.get_matching_blocks())`
(the dummy terminal block contributes 0). -/
def totalMatches (a b : List Char) : Nat :=
  ((matchingBlocksAux a b (a.length + b.length + 1) 0 a.length 0 b.length).map
    Match3.size).sum

/-- `_calculate_ratio(matches, length)` over the two sequences:
`2.0 * matches / length`, and `1.0` when both sequences are empty. -/
def ratioQ (a b : List Char) : ℚ :=
  if a.length + b.length = 0 then 1
  else (2 * totalMatches a b : ℚ) / (a.length + b.length : ℚ)

/-! Verification-side notions for the matcher. -/

def sumSizes (l : List Match3) : Nat :=
  (l.map Match3.size).sum

/-- The block `(besti, bestj, size)` lies inside the rectangle
`[alo, ahi) × [blo, bhi)`. -/
def InBounds (alo ahi blo bhi : Nat) (st : Match3) : Prop :=
  alo ≤ st.besti ∧ st.besti + st.size ≤ ahi ∧
    blo ≤ st.bestj ∧ st.bestj + st.size ≤ bhi

/-- Length of the maximal run of non-popular positions of `a` ending at
`i`: the value of the diagonal `j2len` chain when `a` is matched against
itself. -/
def drun (a : List Char) : Nat → Nat
  | 0 => if isPopular a (a.getD 0 ' ') then 0 else 1
  | i + 1 => if isPopular a (a.getD (i + 1) ' ') then 0 else drun a i + 1

/-- The diagonal chain value of the previous row (0 before row 0). -/
def prevd (a : List Char) : Nat → Nat
  | 0 => 0
  | i + 1 => drun a i

end Difflib

/-- The spec's TextSimilarity: the sequence-matching ratio of the two
strings after case folding, as used by NameEvaluator, CompanyEvaluator and
AddressEvaluator. -/
def TextSimilarity (a b : String) : ℚ :=
  Difflib.ratioQ (upperL a) (upperL b)

/-! ## Decimal numbers: Python `float()` on plain literals -/

def isDigitCh (c : Char) : Bool :=
  48 ≤ c.toNat && c.toNat ≤ 57

def digToNat (c : Char) : Nat :=
  c.toNat - 48

def natOfDigits : List Char → Nat
  | [] => 0
  | c :: rest => digToNat c * 10 ^ rest.length + natOfDigits rest

/-- Strip leading and trailing whitespace (Python `str.strip()` /
the whitespace tolerance of `float()`). -/
def trimWs (l : List Char) : List Char :=
  ((l.dropWhile Char.isWhitespace).reverse.dropWhile Char.isWhitespace).reverse

/-- Models Python `float(s)` on plain decimal literals: optional
whitespace, an optional sign, digits with at most one dot, at least one
digit in total.  Exponent, underscore and inf/nan forms are modelled as
parse failures (`none` stands for `ValueError`). -/
def pyFloat? (l : List Char) : Option ℚ :=
  let l1 := trimWs l
  let sl : ℚ × List Char :=
    match l1 with
    | '-' :: rest => (-1, rest)
    | '+' :: rest => (1, rest)
    | _ => (1, l1)
  let ip := sl.2.takeWhile isDigitCh
  let rest := sl.2.dropWhile isDigitCh
  match rest with
  | [] => if ip.isEmpty then none else some (sl.1 * natOfDigits ip)
  | '.' :: frac =>
    if frac.all isDigitCh ∧ 0 < ip.length + frac.length then
      some (sl.1 * ((natOfDigits ip : ℚ) + (natOfDigits frac : ℚ) / (10 ^ frac.length : ℚ)))
    else none
  | _ => none

/-- Python `str.replace(pat, '')` for a nonempty pattern: remove every
occurrence, scanning left to right without overlap.  The fuel is
instantiated with the length of the scanned list, which bounds the
number of steps. -/
def removeSub (pat : List Char) : Nat → List Char → List Char
  | 0, l => l
  | _ + 1, [] => []
  | fuel + 1, c :: rest =>
    if pat ≠ [] ∧ pat.isPrefixOf (c :: rest) then
      removeSub pat fuel ((c :: rest).drop pat.length)
    else c :: removeSub pat fuel rest

/-- `total_str.replace('$','').replace(',','').replace('RM','').strip()`
from `TotalEvaluator._clean_total`. -/
def cleanChars (l : List Char) : List Char :=
  let l1 := removeSub ['$'] l.length l
  let l2 := removeSub [','] l1.length l1
  let l3 := removeSub ['R', 'M'] l2.length l2
  trimWs l3

/-- `TotalEvaluator._clean_total`: clean the string and parse it;
`ValueError` (parse failure) and `AttributeError` (non-string value,
which has no `.replace`) are caught and yield `0.0`. -/
def cleanTotal : Val → ℚ
  | .vstr s =>
    match pyFloat? (cleanChars s.toList) with
    | some q => q
    | none => 0
  | _ => 0

/-- Python `float(value)` on a mapping value: numbers pass through,
strings are parsed, `None` raises `TypeError` (modelled as `none`,
caught by the evaluator together with `ValueError`). -/
def floatOfVal : Val → Option ℚ
  | .vstr s => pyFloat? s.toList
  | .vnum q => some q
  | .vnull => none

/-! ## Dates: `dateutil.parser.parse` and `strftime('%Y-%m-%d')`

`dateutil` is an external dependency; it is modelled here on zero-padded
ISO `YYYY-MM-DD` inputs (year-month-day order, calendar-validated, as
dateutil parses them), with every other input shape modelled as a parse
failure (`ValueError`/`TypeError`, both caught by `DateEvaluator`). -/

structure Date where
  year : Nat
  month : Nat
  day : Nat
deriving DecidableEq

/-- Python `str.split('-')`. -/
def splitD : List Char → List (List Char)
  | [] => [[]]
  | c :: rest =>
    if c = '-' then [] :: splitD rest
    else
      match splitD rest with
      | h :: t => (c :: h) :: t
      | [] => [[c]]

def daysInMonth (y m : Nat) : Nat :=
  if m = 2 then
    if (y % 4 = 0 ∧ y % 100 ≠ 0) ∨ y % 400 = 0 then 29 else 28
  else if m = 4 ∨ m = 6 ∨ m = 9 ∨ m = 11 then 30
  else 31

/-- Modelled `dateutil.parser.parse` on ISO `YYYY-MM-DD` character lists:
four year digits (year at least 1, as in `datetime`), two month digits in
1..12, two day digits valid for the month; anything else fails. -/
def dateParseL (l : List Char) : Option Date :=
  match splitD l with
  | [ys, ms, ds] =>
    if ys.length = 4 ∧ ys.all isDigitCh ∧ ms.length = 2 ∧ ms.all isDigitCh ∧
        ds.length = 2 ∧ ds.all isDigitCh then
      if 1 ≤ natOfDigits ys ∧ 1 ≤ natOfDigits ms ∧ natOfDigits ms ≤ 12 ∧
          1 ≤ natOfDigits ds ∧
          natOfDigits ds ≤ daysInMonth (natOfDigits ys) (natOfDigits ms) then
        some ⟨natOfDigits ys, natOfDigits ms, natOfDigits ds⟩
      else none
    else none
  | _ => none

/-- `parser.parse` applied to a mapping value: non-strings raise
`TypeError`, which the evaluator catches; so the model folds both failure
modes into `none`. -/
def dateValParse : Val → Option Date
  | .vstr s => dateParseL s.toList
  | _ => none

def digitCh (n : Nat) : Char :=
  Char.ofNat (48 + n)

/-- `strftime('%m')` / `strftime('%d')`: two zero-padded digits
(faithful for the parser-guaranteed ranges below 100). -/
def pad2 (n : Nat) : List Char :=
  [digitCh (n / 10), digitCh (n % 10)]

/-- `strftime('%Y')`: four zero-padded digits (faithful below 10000). -/
def pad4 (n : Nat) : List Char :=
  [digitCh (n / 1000), digitCh (n / 100 % 10), digitCh (n / 10 % 10), digitCh (n % 10)]

/-- `date_obj.strftime('%Y-%m-%d')`. -/
def fmtDate (d : Date) : List Char :=
  pad4 d.year ++ '-' :: (pad2 d.month ++ '-' :: pad2 d.day)

/-- `DateEvaluator._swap_day_month`: split on `'-'`; with exactly three
components rebuild as `year-day-month`, otherwise (the unpacking raises
`ValueError`, which is caught) return the input unchanged. -/
def swapDayMonthL (l : List Char) : List Char :=
  match splitD l with
  | [ys, ms, ds] => ys ++ '-' :: (ds ++ '-' :: ms)
  | _ => l

/-! ## The five evaluators -/

/-- `NameEvaluator.evaluate` (eval_handwriting.py): `ctx.output['name']`
with `KeyError` caught (score 0.0); a falsy value is replaced by the
sentinel `"EMPTY"`; then
`SequenceMatcher(None, result.upper(), ctx.expected_output['name'].upper()).ratio()`
— the expected-side lookup is not guarded, so a missing expected key
raises, and `.upper()` on a truthy non-string raises. -/
def nameEvaluate (output expected : Dict) : Except PyErr ℚ :=
  match lookupKey output "name" with
  | none => .ok 0
  | some v0 =>
    match upperVal (if isFalsy v0 then Val.vstr "EMPTY" else v0) with
    | .error e => .error e
    | .ok x =>
      match lookupKey expected "name" with
      | none => .error .keyError
      | some w =>
        match upperVal w with
        | .error e => .error e
        | .ok y => .ok (Difflib.ratioQ x y)

/-- `CompanyEvaluator.evaluate` (eval_sroie2019.py): `.get('company') is
None` on either side scores 0.0, otherwise the case-folded sequence ratio
(`.upper()` on a non-string raises). -/
def companyEvaluate (output expected : Dict) : Except PyErr ℚ :=
  if isNoneAt output "company" || isNoneAt expected "company" then .ok 0
  else
    match upperVal (valAt output "company") with
    | .error e => .error e
    | .ok x =>
      match upperVal (valAt expected "company") with
      | .error e => .error e
      | .ok y => .ok (Difflib.ratioQ x y)

/-- `AddressEvaluator.evaluate`: identical to CompanyEvaluator on the
`address` field (no empty-string sentinel here). -/
def addressEvaluate (output expected : Dict) : Except PyErr ℚ :=
  if isNoneAt output "address" || isNoneAt expected "address" then .ok 0
  else
    match upperVal (valAt output "address") with
    | .error e => .error e
    | .ok x =>
      match upperVal (valAt expected "address") with
      | .error e => .error e
      | .ok y => .ok (Difflib.ratioQ x y)

/-- `DateEvaluator.evaluate`: `.get('date') is None` guards, then parse
the expected date, render it, build the textually day/month-swapped
variant, parse and render the output date, and compare strings; parse
failures (`ValueError`/`TypeError`) are caught and score 0.0.  The
comparison is binary. -/
def dateEvaluate (output expected : Dict) : Except PyErr ℚ :=
  if isNoneAt output "date" || isNoneAt expected "date" then .ok 0
  else
    match dateValParse (valAt expected "date") with
    | none => .ok 0
    | some ed =>
      match dateValParse (valAt output "date") with
      | none => .ok 0
      | some od =>
        if fmtDate od = fmtDate ed ∨ fmtDate od = swapDayMonthL (fmtDate ed) then .ok 1
        else .ok 0

/-- `TotalEvaluator.evaluate`: `.get('total') is None` guards; the
expected side goes through `_clean_total` (0.0 on a cleaned value of
zero); the output side through a bare `float()` with
`ValueError`/`TypeError` caught; exact equality scores 1.0; otherwise
`max(0.0, 1 - abs(expected - output) / expected)` — note the division by
the signed `expected_total`, exactly as in the source. -/
def totalEvaluate (output expected : Dict) : Except PyErr ℚ :=
  if isNoneAt output "total" || isNoneAt expected "total" then .ok 0
  else if cleanTotal (valAt expected "total") = 0 then .ok 0
  else
    match floatOfVal (valAt output "total") with
    | none => .ok 0
    | some o =>
      if cleanTotal (valAt expected "total") = o then .ok 1
      else .ok (max 0 (1 - |cleanTotal (valAt expected "total") - o| /
        cleanTotal (valAt expected "total")))

/-! ## Extraction client (extract_name / extract_receipt)

The response handling of both clients: only `await response.json()` and
the subsequent `res.get('data', {})` are inside the `try`; a transport
failure while issuing the request (`session.post` / reading the body)
happens outside it and propagates. -/

inductive Response where
  | transportError
  | invalidJson
  | json (dataField : Option Dict)
deriving DecidableEq

def errorSentinel : Dict := [("error", Val.vstr "Unable to parse")]

/-- Response handling shared by `extract_name` and `extract_receipt`:
a body that fails to parse as JSON is converted to
`{"error": "Unable to parse"}`; a parsed body yields `res.get('data', {})`
(the empty mapping when `data` is absent); a transport error raised while
issuing the request is not caught. -/
def extractResult : Response → Except PyErr Dict
  | .transportError => .error .connectionError
  | .invalidJson => .ok errorSentinel
  | .json none => .ok []
  | .json (some d) => .ok d

/-! ## Evaluation runner (report ordering) -/

structure EvalCase where
  name : String
  input : String
  expected : Dict
deriving DecidableEq

/-- Modelled from the spec: the Evaluation Runner is
`pydantic_evals.Dataset.evaluate`, which is not part of this repository.
Per the spec it schedules the extraction calls concurrently (completion
order unconstrained, at most 20 in flight) and "must index results by
case position, not by arrival".  A finished run is modelled by the order
in which case indices complete: each completion writes its result into
the slot of its case position. -/
def runSlots (cases : List EvalCase) (extract : String → Dict) :
    List Nat → List (Option Dict) → List (Option Dict)
  | [], slots => slots
  | i :: rest, slots =>
    runSlots cases extract rest
      (slots.set i (some (extract ((cases.getD i ⟨"", "", []⟩).input))))

/-- Modelled from the spec: the final report pairs the cases, in input
order, with the result slots. -/
def runReport (cases : List EvalCase) (extract : String → Dict)
    (order : List Nat) : List (EvalCase × Option Dict) :=
  cases.zip (runSlots cases extract order (List.replicate cases.length none))

/-! # Verification -/

namespace Difflib

/-! ## The returned block lies in the requested rectangle -/

theorem innerLoop_bounds (i : Nat) (old : Nat → Nat)
    (alo ahi blo bhi : Nat)
    (hia : alo ≤ i) (hib : i < ahi)
    (hold : ∀ j, old j + alo ≤ i)
    (holdb : ∀ j, old j = 0 ∨ old j + blo ≤ j + 1) :
    ∀ (js : List Nat) (st : Match3) (acc : Nat → Nat),
      (∀ j ∈ js, blo ≤ j ∧ j < bhi) →
      InBounds alo ahi blo bhi st →
      (∀ j, acc j + alo ≤ i + 1) →
      (∀ j, acc j = 0 ∨ acc j + blo ≤ j + 1) →
      InBounds alo ahi blo bhi (innerLoop i old js st acc).1 ∧
        (∀ j, (innerLoop i old js st acc).2 j + alo ≤ i + 1) ∧
        (∀ j, (innerLoop i old js st acc).2 j = 0 ∨
          (innerLoop i old js st acc).2 j + blo ≤ j + 1) := by
  intro js
  induction js with
  | nil =>
    intro st acc _ hst hacc1 hacc2
    exact ⟨hst, hacc1, hacc2⟩
  | cons j js ih =>
    intro st acc hmem hst hacc1 hacc2
    have hj := hmem j (List.mem_cons_self _ _)
    simp only [innerLoop]
    set K := (if j = 0 then 0 else old (j - 1)) + 1 with hK
    have hK1 : K + alo ≤ i + 1 := by
      rw [hK]
      by_cases h0 : j = 0
      · rw [if_pos h0]; omega
      · rw [if_neg h0]; have := hold (j - 1); omega
    have hK2 : K + blo ≤ j + 1 := by
      rw [hK]
      by_cases h0 : j = 0
      · rw [if_pos h0]; have := hj.1; omega
      · rw [if_neg h0]
        rcases holdb (j - 1) with h | h
        · have := hj.1; omega
        · omega
    refine ih _ _ (fun x hx => hmem x (List.mem_cons_of_mem _ hx)) ?_ ?_ ?_
    · split
      · next hlt =>
        refine ⟨?_, ?_, ?_, ?_⟩
        · show alo ≤ i + 1 - K; omega
        · show i + 1 - K + K ≤ ahi; omega
        · show blo ≤ j + 1 - K; omega
        · show j + 1 - K + K ≤ bhi; have := hj.2; omega
      · exact hst
    · intro x
      split
      · omega
      · exact hacc1 x
    · intro x
      split
      · next hx => right; omega
      · exact hacc2 x

theorem mainLoop_bounds (a b : List Char) (alo ahi blo bhi : Nat) :
    ∀ (cnt i : Nat) (st : Match3) (j2len : Nat → Nat),
      alo ≤ i → i + cnt ≤ ahi →
      InBounds alo ahi blo bhi st →
      (∀ j, j2len j + alo ≤ i) →
      (∀ j, j2len j = 0 ∨ j2len j + blo ≤ j + 1) →
      InBounds alo ahi blo bhi (mainLoop a b blo bhi (rows i cnt) st j2len) := by
  intro cnt
  induction cnt with
  | zero => intro i st j2len _ _ hst _ _; exact hst
  | succ cnt ih =>
    intro i st j2len hai hic hst hj1 hj2
    rw [show rows i (cnt + 1) = i :: rows (i + 1) cnt from rfl]
    rw [show mainLoop a b blo bhi (i :: rows (i + 1) cnt) st j2len =
        mainLoop a b blo bhi (rows (i + 1) cnt)
          (innerLoop i j2len
            ((b2j b (a.getD i ' ')).filter fun j => decide (blo ≤ j) && decide (j < bhi))
            st (fun _ => 0)).1
          (innerLoop i j2len
            ((b2j b (a.getD i ' ')).filter fun j => decide (blo ≤ j) && decide (j < bhi))
            st (fun _ => 0)).2 from rfl]
    have hmem : ∀ j ∈ (b2j b (a.getD i ' ')).filter
        (fun j => decide (blo ≤ j) && decide (j < bhi)), blo ≤ j ∧ j < bhi := by
      intro j hjf
      have := (List.mem_filter.mp hjf).2
      simp only [Bool.and_eq_true, decide_eq_true_eq] at this
      exact this
    have hinner := innerLoop_bounds i j2len alo ahi blo bhi hai (by omega) hj1 hj2
      _ st (fun _ => 0) hmem hst
      (fun j => by show (0 : Nat) + alo ≤ i + 1; omega)
      (fun j => Or.inl rfl)
    exact ih (i + 1) _ _ (by omega) (by omega) hinner.1 hinner.2.1 hinner.2.2

theorem extendBack_bounds (a b : List Char) (alo blo ahi bhi : Nat) :
    ∀ (fuel : Nat) (st : Match3),
      InBounds alo ahi blo bhi st →
      InBounds alo ahi blo bhi (extendBack a b alo blo fuel st) := by
  intro fuel
  induction fuel with
  | zero => intro st h; exact h
  | succ fuel ih =>
    intro st h
    rw [extendBack]
    split
    · next hcond =>
      obtain ⟨h1, h2, h3, h4⟩ := h
      obtain ⟨hc1, hc2, -⟩ := hcond
      refine ih _ ⟨?_, ?_, ?_, ?_⟩
      · show alo ≤ st.besti - 1; omega
      · show st.besti - 1 + (st.size + 1) ≤ ahi; omega
      · show blo ≤ st.bestj - 1; omega
      · show st.bestj - 1 + (st.size + 1) ≤ bhi; omega
    · exact h

theorem extendFwd_bounds (a b : List Char) (alo blo ahi bhi : Nat) :
    ∀ (fuel : Nat) (st : Match3),
      InBounds alo ahi blo bhi st →
      InBounds alo ahi blo bhi (extendFwd a b ahi bhi fuel st) := by
  intro fuel
  induction fuel with
  | zero => intro st h; exact h
  | succ fuel ih =>
    intro st h
    rw [extendFwd]
    split
    · next hcond =>
      obtain ⟨h1, h2, h3, h4⟩ := h
      obtain ⟨hc1, hc2, -⟩ := hcond
      refine ih _ ⟨?_, ?_, ?_, ?_⟩
      · show alo ≤ st.besti; omega
      · show st.besti + (st.size + 1) ≤ ahi; omega
      · show blo ≤ st.bestj; omega
      · show st.bestj + (st.size + 1) ≤ bhi; omega
    · exact h

theorem findLongestMatch_bounds (a b : List Char) (alo ahi blo bhi : Nat)
    (h1 : alo ≤ ahi) (h2 : blo ≤ bhi) :
    InBounds alo ahi blo bhi (findLongestMatch a b alo ahi blo bhi) := by
  have hm := mainLoop_bounds a b alo ahi blo bhi (ahi - alo) alo ⟨alo, blo, 0⟩
    (fun _ => 0) (le_refl alo) (by omega)
    ⟨le_refl alo, by show alo + 0 ≤ ahi; omega, le_refl blo, by show blo + 0 ≤ bhi; omega⟩
    (fun j => by show (0 : Nat) + alo ≤ alo; omega)
    (fun j => Or.inl rfl)
  exact extendFwd_bounds a b alo blo ahi bhi ahi _
    (extendBack_bounds a b alo blo ahi bhi _ _ hm)

theorem blocks_sum (a b : List Char) :
    ∀ (fuel alo ahi blo bhi : Nat), alo ≤ ahi → blo ≤ bhi →
      sumSizes (matchingBlocksAux a b fuel alo ahi blo bhi) + alo ≤ ahi ∧
        sumSizes (matchingBlocksAux a b fuel alo ahi blo bhi) + blo ≤ bhi := by
  intro fuel
  induction fuel with
  | zero =>
    intro alo ahi blo bhi h1 h2
    simp only [matchingBlocksAux, sumSizes, List.map_nil, List.sum_nil]
    omega
  | succ fuel ih =>
    intro alo ahi blo bhi h1 h2
    obtain ⟨hb1, hb2, hb3, hb4⟩ := findLongestMatch_bounds a b alo ahi blo bhi h1 h2
    rw [matchingBlocksAux]
    split
    · simp only [sumSizes, List.map_nil, List.sum_nil]; omega
    · next hsz =>
      have hL : sumSizes
          (if alo < (findLongestMatch a b alo ahi blo bhi).besti ∧
              blo < (findLongestMatch a b alo ahi blo bhi).bestj then
            matchingBlocksAux a b fuel alo (findLongestMatch a b alo ahi blo bhi).besti
              blo (findLongestMatch a b alo ahi blo bhi).bestj
          else []) + alo ≤ (findLongestMatch a b alo ahi blo bhi).besti ∧
          sumSizes
          (if alo < (findLongestMatch a b alo ahi blo bhi).besti ∧
              blo < (findLongestMatch a b alo ahi blo bhi).bestj then
            matchingBlocksAux a b fuel alo (findLongestMatch a b alo ahi blo bhi).besti
              blo (findLongestMatch a b alo ahi blo bhi).bestj
          else []) + blo ≤ (findLongestMatch a b alo ahi blo bhi).bestj := by
        split
        · next hc => exact ih alo _ blo _ (le_of_lt hc.1) (le_of_lt hc.2)
        · simp only [sumSizes, List.map_nil, List.sum_nil]; omega
      have hR : sumSizes
          (if (findLongestMatch a b alo ahi blo bhi).besti +
                (findLongestMatch a b alo ahi blo bhi).size < ahi ∧
              (findLongestMatch a b alo ahi blo bhi).bestj +
                (findLongestMatch a b alo ahi blo bhi).size < bhi then
            matchingBlocksAux a b fuel
              ((findLongestMatch a b alo ahi blo bhi).besti +
                (findLongestMatch a b alo ahi blo bhi).size) ahi
              ((findLongestMatch a b alo ahi blo bhi).bestj +
                (findLongestMatch a b alo ahi blo bhi).size) bhi
          else []) +
            ((findLongestMatch a b alo ahi blo bhi).besti +
              (findLongestMatch a b alo ahi blo bhi).size) ≤ ahi ∧
          sumSizes
          (if (findLongestMatch a b alo ahi blo bhi).besti +
                (findLongestMatch a b alo ahi blo bhi).size < ahi ∧
              (findLongestMatch a b alo ahi blo bhi).bestj +
                (findLongestMatch a b alo ahi blo bhi).size < bhi then
            matchingBlocksAux a b fuel
              ((findLongestMatch a b alo ahi blo bhi).besti +
                (findLongestMatch a b alo ahi blo bhi).size) ahi
              ((findLongestMatch a b alo ahi blo bhi).bestj +
                (findLongestMatch a b alo ahi blo bhi).size) bhi
          else []) +
            ((findLongestMatch a b alo ahi blo bhi).bestj +
              (findLongestMatch a b alo ahi blo bhi).size) ≤ bhi := by
        split
        · next hc => exact ih _ ahi _ bhi (le_of_lt hc.1) (le_of_lt hc.2)
        · simp only [sumSizes, List.map_nil, List.sum_nil]; omega
      simp only [sumSizes, List.map_append, List.sum_append, List.map_cons,
        List.sum_cons] at *
      omega

theorem totalMatches_le (a b : List Char) :
    totalMatches a b ≤ a.length ∧ totalMatches a b ≤ b.length := by
  have h := blocks_sum a b (a.length + b.length + 1) 0 a.length 0 b.length
    (Nat.zero_le _) (Nat.zero_le _)
  simpa [totalMatches, sumSizes] using h

/-- Every ratio lies in the closed unit interval. -/
theorem ratioQ_nonneg (a b : List Char) : 0 ≤ ratioQ a b := by
  unfold ratioQ
  split
  · norm_num
  · positivity

theorem ratioQ_le_one (a b : List Char) : ratioQ a b ≤ 1 := by
  unfold ratioQ
  split
  · norm_num
  · next h =>
    obtain ⟨hM1, hM2⟩ := totalMatches_le a b
    have hpos : (0 : ℚ) < (a.length : ℚ) + (b.length : ℚ) := by
      have : 0 < a.length + b.length := Nat.pos_of_ne_zero h
      exact_mod_cast this
    rw [div_le_one hpos]
    have h1 : (totalMatches a b : ℚ) ≤ (a.length : ℚ) := by exact_mod_cast hM1
    have h2 : (totalMatches a b : ℚ) ≤ (b.length : ℚ) := by exact_mod_cast hM2
    linarith

/-! ## Matching a sequence against itself gives ratio 1

On identical sequences the main loop's best block always lies on the
diagonal (an off-diagonal junk-free chain is dominated by the diagonal
chain through the same characters, which the ascending scan reaches no
later), and a diagonal block extends, through the popularity-agnostic
extension loops, to the whole interval. -/

theorem get?_eq_some_getD {a : List Char} {i : Nat} (h : i < a.length) :
    a.get? i = some (a.getD i ' ') := by
  rw [List.getD_eq_getElem?_getD, List.get?_eq_getElem?, List.getElem?_eq_getElem h]
  rfl

theorem getD_of_get? {a : List Char} {j : Nat} {c : Char} (h : a.get? j = some c) :
    a.getD j ' ' = c := by
  rw [List.getD_eq_getElem?_getD, ← List.get?_eq_getElem?, h]
  rfl

theorem mem_b2j {a : List Char} {c : Char} {j : Nat} :
    j ∈ b2j a c ↔ isPopular a c = false ∧ j < a.length ∧ a.get? j = some c := by
  unfold b2j positions
  split
  · next hpop =>
    simp only [List.not_mem_nil, false_iff]
    intro hcon
    rw [hcon.1] at hpop
    cases hpop
  · next hpop =>
    have hpop' : isPopular a c = false := by
      cases hb : isPopular a c
      · rfl
      · exact absurd hb hpop
    rw [List.mem_filter, List.mem_range]
    simp [hpop']

theorem b2j_pairwise (a : List Char) (c : Char) : (b2j a c).Pairwise (· < ·) := by
  unfold b2j positions
  split
  · exact List.Pairwise.nil
  · exact (List.pairwise_lt_range _).filter _

theorem b2j_filter_self (a : List Char) (c : Char) :
    (b2j a c).filter (fun j => decide (0 ≤ j) && decide (j < a.length)) = b2j a c := by
  apply List.filter_eq_self.mpr
  intro j hj
  obtain ⟨-, hn, -⟩ := mem_b2j.mp hj
  simp [hn]

theorem drun_of_pop {a : List Char} {i : Nat}
    (h : isPopular a (a.getD i ' ') = true) : drun a i = 0 := by
  cases i with
  | zero => rw [drun, if_pos h]
  | succ n => rw [drun, if_pos h]

theorem drun_eq_prevd_succ (a : List Char) (i : Nat)
    (h : isPopular a (a.getD i ' ') = false) : drun a i = prevd a i + 1 := by
  cases i with
  | zero =>
    rw [drun, if_neg (by rw [h]; exact Bool.false_ne_true)]
    rfl
  | succ n =>
    rw [drun, if_neg (by rw [h]; exact Bool.false_ne_true)]
    rfl

theorem prevd_of_ne (a : List Char) (j : Nat) (h : j ≠ 0) :
    prevd a j = drun a (j - 1) := by
  obtain ⟨j', rfl⟩ : ∃ j', j = j' + 1 := ⟨j - 1, by omega⟩
  rfl

theorem innerLoop_refl (a : List Char) (i : Nat) (old : Nat → Nat) (c : Char)
    (hin : i < a.length)
    (hc : a.getD i ' ' = c)
    (hpop : isPopular a c = false)
    (hold1 : ∀ j, old j ≤ prevd a i)
    (hold2 : ∀ j, old j ≤ drun a j)
    (hold3 : ∀ i', i = i' + 1 → old i' = drun a i') :
    ∀ (js : List Nat) (st : Match3) (acc : Nat → Nat),
      js.Pairwise (· < ·) →
      (∀ j ∈ js, j ∈ b2j a c) →
      st.besti = st.bestj →
      (∀ i' < i, drun a i' ≤ st.size) →
      (i ∈ js ∨ drun a i ≤ st.size) →
      (∀ j, acc j ≤ drun a i ∧ acc j ≤ drun a j) →
      (i ∈ js ∨ acc i = drun a i) →
      ((innerLoop i old js st acc).1.besti = (innerLoop i old js st acc).1.bestj) ∧
        (∀ i' < i, drun a i' ≤ (innerLoop i old js st acc).1.size) ∧
        drun a i ≤ (innerLoop i old js st acc).1.size ∧
        (∀ j, (innerLoop i old js st acc).2 j ≤ drun a i ∧
          (innerLoop i old js st acc).2 j ≤ drun a j) ∧
        (innerLoop i old js st acc).2 i = drun a i := by
  have hipop : isPopular a (a.getD i ' ') = false := by rw [hc]; exact hpop
  have hdi : drun a i = prevd a i + 1 := drun_eq_prevd_succ a i hipop
  intro js
  induction js with
  | nil =>
    intro st acc _ _ hdiag hprev hpend hacc haccd
    refine ⟨hdiag, hprev, ?_, hacc, ?_⟩
    · rcases hpend with h | h
      · exact absurd h (List.not_mem_nil i)
      · exact h
    · rcases haccd with h | h
      · exact absurd h (List.not_mem_nil i)
      · exact h
  | cons j js ih =>
    intro st acc hpw hmem hdiag hprev hpend hacc haccd
    have hjmem := hmem j (List.mem_cons_self _ _)
    obtain ⟨-, hjn, hjc⟩ := mem_b2j.mp hjmem
    have hjd : a.getD j ' ' = c := getD_of_get? hjc
    have hjpop : isPopular a (a.getD j ' ') = false := by rw [hjd]; exact hpop
    have hdj : drun a j = prevd a j + 1 := drun_eq_prevd_succ a j hjpop
    have hpw' : js.Pairwise (· < ·) := hpw.of_cons
    have hhead : ∀ x ∈ js, j < x := fun x hx => List.rel_of_pairwise_cons hpw hx
    have hmem' : ∀ x ∈ js, x ∈ b2j a c := fun x hx => hmem x (List.mem_cons_of_mem _ hx)
    simp only [innerLoop]
    set K := (if j = 0 then 0 else old (j - 1)) + 1 with hKdef
    have hKj : K ≤ drun a j := by
      rw [hKdef]
      by_cases h0 : j = 0
      · rw [if_pos h0]; omega
      · rw [if_neg h0]
        have h2 := hold2 (j - 1)
        have hp := prevd_of_ne a j h0
        omega
    have hKi : K ≤ drun a i := by
      rw [hKdef]
      by_cases h0 : j = 0
      · rw [if_pos h0]; omega
      · rw [if_neg h0]
        have := hold1 (j - 1)
        omega
    rcases Nat.lt_trichotomy j i with hji | hji | hji
    · -- j below the diagonal: its chain is dominated by an earlier row's bound
      have hnofire : ¬ st.size < K := by
        have := hprev j hji
        omega
      rw [if_neg hnofire]
      refine ih _ _ hpw' hmem' hdiag hprev ?_ ?_ ?_
      · rcases hpend with h | h
        · rcases List.mem_cons.mp h with h' | h'
          · omega
          · exact Or.inl h'
        · exact Or.inr h
      · intro x
        by_cases hx : x = j
        · rw [if_pos hx]
          exact ⟨hKi, by rw [hx]; exact hKj⟩
        · rw [if_neg hx]; exact hacc x
      · rcases haccd with h | h
        · rcases List.mem_cons.mp h with h' | h'
          · omega
          · exact Or.inl h'
        · right
          show (if i = j then K else acc i) = drun a i
          rw [if_neg (by omega)]
          exact h
    · -- the diagonal element itself
      subst hji
      have hKeq : K = drun a j := by
        rw [hKdef]
        by_cases h0 : j = 0
        · subst h0
          rw [if_pos rfl]
          simp only [prevd] at hdj
          omega
        · rw [if_neg h0]
          have h3 := hold3 (j - 1) (by omega)
          rw [h3]
          have hp := prevd_of_ne a j h0
          omega
      by_cases hfire : st.size < K
      · rw [if_pos hfire]
        refine ih _ _ hpw' hmem' rfl ?_ ?_ ?_ ?_
        · intro i' hi'
          show drun a i' ≤ K
          have := hprev i' hi'
          omega
        · right; show drun a j ≤ K; omega
        · intro x
          by_cases hx : x = j
          · rw [if_pos hx]
            exact ⟨hKi, by rw [hx]; exact hKj⟩
          · rw [if_neg hx]; exact hacc x
        · right
          show (if j = j then K else acc j) = drun a j
          rw [if_pos rfl]
          exact hKeq
      · rw [if_neg hfire]
        refine ih _ _ hpw' hmem' hdiag hprev ?_ ?_ ?_
        · right; omega
        · intro x
          by_cases hx : x = j
          · rw [if_pos hx]
            exact ⟨hKi, by rw [hx]; exact hKj⟩
          · rw [if_neg hx]; exact hacc x
        · right
          show (if j = j then K else acc j) = drun a j
          rw [if_pos rfl]
          exact hKeq
    · -- j above the diagonal: the diagonal was already processed
      have hbound : drun a i ≤ st.size := by
        rcases hpend with h | h
        · rcases List.mem_cons.mp h with h' | h'
          · omega
          · exact absurd (hhead i h') (by omega)
        · exact h
      have haccd' : acc i = drun a i := by
        rcases haccd with h | h
        · rcases List.mem_cons.mp h with h' | h'
          · omega
          · exact absurd (hhead i h') (by omega)
        · exact h
      have hnofire : ¬ st.size < K := by omega
      rw [if_neg hnofire]
      refine ih _ _ hpw' hmem' hdiag hprev (Or.inr hbound) ?_ ?_
      · intro x
        by_cases hx : x = j
        · rw [if_pos hx]
          exact ⟨hKi, by rw [hx]; exact hKj⟩
        · rw [if_neg hx]; exact hacc x
      · right
        show (if i = j then K else acc i) = drun a i
        rw [if_neg (by omega)]
        exact haccd'

theorem mainLoop_refl (a : List Char) :
    ∀ (cnt i : Nat) (st : Match3) (old : Nat → Nat),
      i + cnt = a.length →
      st.besti = st.bestj →
      (∀ i' < i, drun a i' ≤ st.size) →
      (∀ j, old j ≤ prevd a i) →
      (∀ j, old j ≤ drun a j) →
      (∀ i', i = i' + 1 → old i' = drun a i') →
      (mainLoop a a 0 a.length (rows i cnt) st old).besti =
        (mainLoop a a 0 a.length (rows i cnt) st old).bestj := by
  intro cnt
  induction cnt with
  | zero => intro i st old _ hdiag _ _ _ _; exact hdiag
  | succ cnt ih =>
    intro i st old hsum hdiag hprev ho1 ho2 ho3
    have hin : i < a.length := by omega
    rw [show rows i (cnt + 1) = i :: rows (i + 1) cnt from rfl]
    rw [show mainLoop a a 0 a.length (i :: rows (i + 1) cnt) st old =
        mainLoop a a 0 a.length (rows (i + 1) cnt)
          (innerLoop i old ((b2j a (a.getD i ' ')).filter fun j =>
            decide (0 ≤ j) && decide (j < a.length)) st (fun _ => 0)).1
          (innerLoop i old ((b2j a (a.getD i ' ')).filter fun j =>
            decide (0 ≤ j) && decide (j < a.length)) st (fun _ => 0)).2 from rfl]
    rw [b2j_filter_self]
    by_cases hpop : isPopular a (a.getD i ' ') = true
    · rw [show b2j a (a.getD i ' ') = [] from by unfold b2j; rw [if_pos hpop]]
      have hd0 : drun a i = 0 := drun_of_pop hpop
      refine ih (i + 1) st (fun _ => 0) (by omega) hdiag ?_ ?_ ?_ ?_
      · intro i' hi'
        rcases Nat.lt_succ_iff_lt_or_eq.mp hi' with h | h
        · exact hprev i' h
        · rw [h, hd0]; omega
      · intro j; show (0 : Nat) ≤ prevd a (i + 1); omega
      · intro j; show (0 : Nat) ≤ drun a j; omega
      · intro i' h
        have hii : i' = i := by omega
        rw [hii, hd0]
    · have hpop' : isPopular a (a.getD i ' ') = false := by
        cases hb : isPopular a (a.getD i ' ')
        · rfl
        · exact absurd hb hpop
      have hdiagmem : i ∈ b2j a (a.getD i ' ') :=
        mem_b2j.mpr ⟨hpop', hin, get?_eq_some_getD hin⟩
      have hi := innerLoop_refl a i old (a.getD i ' ') hin rfl hpop' ho1 ho2 ho3
        (b2j a (a.getD i ' ')) st (fun _ => 0)
        (b2j_pairwise a _) (fun x hx => hx)
        hdiag hprev (Or.inl hdiagmem)
        (fun j => ⟨Nat.zero_le _, Nat.zero_le _⟩)
        (Or.inl hdiagmem)
      obtain ⟨hdiag', hprev', hcur, hacc', haccd'⟩ := hi
      refine ih (i + 1) _ _ (by omega) hdiag' ?_ ?_ ?_ ?_
      · intro i' hi'
        rcases Nat.lt_succ_iff_lt_or_eq.mp hi' with h | h
        · exact hprev' i' h
        · rw [h]; exact hcur
      · intro j; exact (hacc' j).1
      · intro j; exact (hacc' j).2
      · intro i' h
        have hii : i' = i := by omega
        rw [hii]; exact haccd'

theorem extendBack_refl (a : List Char) :
    ∀ (fuel m k : Nat), m ≤ fuel →
      extendBack a a 0 0 fuel ⟨m, m, k⟩ = ⟨0, 0, k + m⟩ := by
  intro fuel
  induction fuel with
  | zero =>
    intro m k hm
    have hm0 : m = 0 := by omega
    subst hm0
    rfl
  | succ fuel ih =>
    intro m k hm
    rw [extendBack]
    by_cases h0 : 0 < m
    · rw [if_pos ⟨h0, h0, rfl⟩]
      refine Eq.trans (ih (m - 1) (k + 1) (by omega)) ?_
      congr 1
      omega
    · rw [if_neg (fun hcon => h0 hcon.1)]
      have hm0 : m = 0 := by omega
      subst hm0
      rfl

theorem extendFwd_refl (a : List Char) :
    ∀ (fuel k : Nat), k ≤ a.length → a.length - k ≤ fuel →
      extendFwd a a a.length a.length fuel ⟨0, 0, k⟩ = ⟨0, 0, a.length⟩ := by
  intro fuel
  induction fuel with
  | zero =>
    intro k hk hf
    have hk0 : k = a.length := by omega
    subst hk0
    rfl
  | succ fuel ih =>
    intro k hk hf
    rw [extendFwd]
    by_cases hlt : k < a.length
    · rw [if_pos ⟨show 0 + k < a.length by omega, show 0 + k < a.length by omega, rfl⟩]
      exact ih (k + 1) (by omega) (by omega)
    · rw [if_neg (fun hcon => hlt (by have h1 : 0 + k < a.length := hcon.1; omega))]
      have hk0 : k = a.length := by omega
      rw [hk0]

theorem findLongestMatch_refl (a : List Char) :
    findLongestMatch a a 0 a.length 0 a.length = ⟨0, 0, a.length⟩ := by
  have hdiag := mainLoop_refl a a.length 0 ⟨0, 0, 0⟩ (fun _ => 0) (by omega) rfl
    (fun i' hi' => absurd hi' (Nat.not_lt_zero i'))
    (fun j => Nat.le_refl 0)
    (fun j => Nat.zero_le _)
    (fun i' h => absurd h (by omega))
  have hbounds := mainLoop_bounds a a 0 a.length 0 a.length a.length 0 ⟨0, 0, 0⟩
    (fun _ => 0) (Nat.zero_le _) (by omega)
    ⟨Nat.le_refl 0, by show 0 + 0 ≤ a.length; omega,
      Nat.le_refl 0, by show 0 + 0 ≤ a.length; omega⟩
    (fun j => by show (0 : Nat) + 0 ≤ 0; omega)
    (fun j => Or.inl rfl)
  rw [show findLongestMatch a a 0 a.length 0 a.length =
      extendFwd a a a.length a.length a.length
        (extendBack a a 0 0
          (mainLoop a a 0 a.length (rows 0 (a.length - 0)) ⟨0, 0, 0⟩ (fun _ => 0)).besti
          (mainLoop a a 0 a.length (rows 0 (a.length - 0)) ⟨0, 0, 0⟩ (fun _ => 0)))
      from rfl]
  rw [Nat.sub_zero]
  rcases hM : mainLoop a a 0 a.length (rows 0 a.length) ⟨0, 0, 0⟩ (fun _ => 0)
    with ⟨bi, bj, k⟩
  rw [hM] at hdiag hbounds
  obtain ⟨hb1, hb2, hb3, hb4⟩ := hbounds
  have hbij : bi = bj := hdiag
  subst hbij
  rw [show (⟨bi, bi, k⟩ : Match3).besti = bi from rfl]
  rw [extendBack_refl a bi bi k (Nat.le_refl bi)]
  have hb2' : bi + k ≤ a.length := hb2
  rw [extendFwd_refl a a.length (k + bi) (by omega) (by omega)]

theorem totalMatches_self (a : List Char) : totalMatches a a = a.length := by
  unfold totalMatches
  rw [show a.length + a.length + 1 = (a.length + a.length) + 1 from rfl]
  rw [matchingBlocksAux]
  rw [findLongestMatch_refl]
  by_cases h0 : a.length = 0
  · rw [if_pos (show (⟨0, 0, a.length⟩ : Match3).size = 0 from h0)]
    simp [h0]
  · rw [if_neg (show ¬ (⟨0, 0, a.length⟩ : Match3).size = 0 from h0)]
    rw [if_neg (show ¬ (0 < (⟨0, 0, a.length⟩ : Match3).besti ∧
      0 < (⟨0, 0, a.length⟩ : Match3).bestj) from fun hc => by
        have h1 : (0 : Nat) < 0 := hc.1
        omega)]
    rw [if_neg (show ¬ ((⟨0, 0, a.length⟩ : Match3).besti +
        (⟨0, 0, a.length⟩ : Match3).size < a.length ∧
        (⟨0, 0, a.length⟩ : Match3).bestj +
        (⟨0, 0, a.length⟩ : Match3).size < a.length) from fun hc => by
        have h1 : 0 + a.length < a.length := hc.1
        omega)]
    simp

theorem ratioQ_self (a : List Char) : ratioQ a a = 1 := by
  unfold ratioQ
  by_cases h : a.length + a.length = 0
  · rw [if_pos h]
  · rw [if_neg h, totalMatches_self]
    have hpos : (0 : ℚ) < (a.length : ℚ) + (a.length : ℚ) := by
      have : 0 < a.length + a.length := Nat.pos_of_ne_zero h
      exact_mod_cast this
    rw [div_eq_one_iff_eq (by linarith)]
    ring

end Difflib

/-! ## Dates: rendering is injective, swapping is rendering of the
swapped triple -/

theorem splitD_nodash {xs : List Char} (h : ∀ c ∈ xs, c ≠ '-') :
    splitD xs = [xs] := by
  induction xs with
  | nil => rfl
  | cons c rest ih =>
    rw [splitD, if_neg (h c (List.mem_cons_self _ _)),
      ih (fun c' hc' => h c' (List.mem_cons_of_mem _ hc'))]

theorem splitD_append {xs ys : List Char} (h : ∀ c ∈ xs, c ≠ '-') :
    splitD (xs ++ '-' :: ys) = xs :: splitD ys := by
  induction xs with
  | nil =>
    show splitD ('-' :: ys) = [] :: splitD ys
    rw [splitD, if_pos rfl]
  | cons c rest ih =>
    show splitD (c :: (rest ++ '-' :: ys)) = (c :: rest) :: splitD ys
    rw [splitD, if_neg (h c (List.mem_cons_self _ _)),
      ih (fun c' hc' => h c' (List.mem_cons_of_mem _ hc'))]

theorem digitCh_ne_dash {n : Nat} (h : n ≤ 9) : digitCh n ≠ '-' := by
  interval_cases n <;> decide

theorem digitCh_toNat {n : Nat} (h : n ≤ 9) : (digitCh n).toNat = 48 + n := by
  interval_cases n <;> decide

theorem digitCh_inj {m n : Nat} (hm : m ≤ 9) (hn : n ≤ 9)
    (h : digitCh m = digitCh n) : m = n := by
  have h1 := digitCh_toNat hm
  have h2 := digitCh_toNat hn
  rw [h] at h1
  omega

theorem pad2_nodash {n : Nat} (h : n < 100) : ∀ c ∈ pad2 n, c ≠ '-' := by
  intro c hc
  simp only [pad2, List.mem_cons, List.not_mem_nil, or_false] at hc
  rcases hc with rfl | rfl
  · exact digitCh_ne_dash (by omega)
  · exact digitCh_ne_dash (by omega)

theorem pad4_nodash {n : Nat} (h : n < 10000) : ∀ c ∈ pad4 n, c ≠ '-' := by
  intro c hc
  simp only [pad4, List.mem_cons, List.not_mem_nil, or_false] at hc
  rcases hc with rfl | rfl | rfl | rfl
  · exact digitCh_ne_dash (by omega)
  · exact digitCh_ne_dash (by omega)
  · exact digitCh_ne_dash (by omega)
  · exact digitCh_ne_dash (by omega)

theorem pad2_inj {m n : Nat} (hm : m < 100) (hn : n < 100)
    (h : pad2 m = pad2 n) : m = n := by
  simp only [pad2, List.cons.injEq, and_true] at h
  have e1 := digitCh_inj (by omega) (by omega) h.1
  have e2 := digitCh_inj (by omega) (by omega) h.2
  omega

theorem pad4_inj {m n : Nat} (hm : m < 10000) (hn : n < 10000)
    (h : pad4 m = pad4 n) : m = n := by
  simp only [pad4, List.cons.injEq, and_true] at h
  have e1 := digitCh_inj (by omega) (by omega) h.1
  have e2 := digitCh_inj (by omega) (by omega) h.2.1
  have e3 := digitCh_inj (by omega) (by omega) h.2.2.1
  have e4 := digitCh_inj (by omega) (by omega) h.2.2.2
  omega

/-- Ranges under which `strftime`-style rendering is faithful. -/
def ValidRange (d : Date) : Prop :=
  d.year < 10000 ∧ d.month < 100 ∧ d.day < 100

theorem splitD_fmt {d : Date} (h : ValidRange d) :
    splitD (fmtDate d) = [pad4 d.year, pad2 d.month, pad2 d.day] := by
  obtain ⟨h1, h2, h3⟩ := h
  unfold fmtDate
  rw [splitD_append (pad4_nodash h1), splitD_append (pad2_nodash h2),
    splitD_nodash (pad2_nodash h3)]

theorem swap_fmt {d : Date} (h : ValidRange d) :
    swapDayMonthL (fmtDate d) = fmtDate ⟨d.year, d.day, d.month⟩ := by
  unfold swapDayMonthL
  rw [splitD_fmt h]
  rfl

theorem fmt_inj {d1 d2 : Date} (h1 : ValidRange d1) (h2 : ValidRange d2)
    (h : fmtDate d1 = fmtDate d2) : d1 = d2 := by
  obtain ⟨h1y, h1m, h1d⟩ := h1
  obtain ⟨h2y, h2m, h2d⟩ := h2
  unfold fmtDate at h
  obtain ⟨hy, ht⟩ := List.append_inj h (by rfl)
  obtain ⟨hm, hd⟩ := List.append_inj (List.cons_injective.eq_iff.mp ht) (by rfl)
  have hdd := List.cons_injective.eq_iff.mp hd
  obtain ⟨y1, m1, dd1⟩ := d1
  obtain ⟨y2, m2, dd2⟩ := d2
  simp only [Date.mk.injEq]
  exact ⟨pad4_inj h1y h2y hy, pad2_inj h1m h2m hm, pad2_inj h1d h2d hdd⟩

theorem natOfDigits_lt {l : List Char} (h : l.all isDigitCh = true) :
    natOfDigits l < 10 ^ l.length := by
  induction l with
  | nil => simp [natOfDigits]
  | cons c rest ih =>
    rw [List.all_cons, Bool.and_eq_true] at h
    have hc : digToNat c ≤ 9 := by
      have := h.1
      unfold isDigitCh at this
      rw [Bool.and_eq_true, decide_eq_true_eq, decide_eq_true_eq] at this
      unfold digToNat
      omega
    have hrest := ih h.2
    show digToNat c * 10 ^ rest.length + natOfDigits rest < 10 ^ (rest.length + 1)
    have hmul : digToNat c * 10 ^ rest.length ≤ 9 * 10 ^ rest.length :=
      Nat.mul_le_mul_right _ hc
    rw [pow_succ]
    omega

theorem daysInMonth_le (y m : Nat) : daysInMonth y m ≤ 31 := by
  unfold daysInMonth
  split
  · split <;> omega
  · split <;> omega

theorem dateParseL_valid {l : List Char} {d : Date} (h : dateParseL l = some d) :
    1 ≤ d.year ∧ d.year ≤ 9999 ∧ 1 ≤ d.month ∧ d.month ≤ 12 ∧
      1 ≤ d.day ∧ d.day ≤ 31 := by
  unfold dateParseL at h
  split at h
  · rename_i ys ms ds heq
    split at h
    · rename_i hfmt
      split at h
      · rename_i hrange
        have hd := daysInMonth_le (natOfDigits ys) (natOfDigits ms)
        have hy : natOfDigits ys < 10 ^ ys.length := natOfDigits_lt hfmt.2.1
        rw [hfmt.1] at hy
        injection h with h
        subst h
        refine ⟨hrange.1, ?_, hrange.2.1, hrange.2.2.1, hrange.2.2.2.1, ?_⟩
        · show natOfDigits ys ≤ 9999
          have h4 : (10 : Nat) ^ 4 = 10000 := by norm_num
          omega
        · show natOfDigits ds ≤ 31
          omega
      · cases h
    · cases h
  · cases h

theorem dateParseL_validRange {l : List Char} {d : Date}
    (h : dateParseL l = some d) : ValidRange d := by
  have := dateParseL_valid h
  exact ⟨by omega, by omega, by omega⟩

/-! ## Evaluator-level lemmas -/

/-- The field value is absent, `None`, or a string — the shapes for which
`.upper()` cannot raise. -/
def TextOk : Option Val → Prop
  | none => True
  | some (.vstr _) => True
  | some .vnull => True
  | some (.vnum _) => False

theorem textOk_vstr {d : Dict} {k : String} (h1 : TextOk (lookupKey d k))
    (h2 : isNoneAt d k = false) : ∃ s, lookupKey d k = some (Val.vstr s) := by
  unfold isNoneAt at h2
  rcases hl : lookupKey d k with _ | v
  · rw [hl] at h2; cases h2
  · rcases v with s | q | _
    · exact ⟨s, rfl⟩
    · rw [hl] at h1; exact h1.elim
    · rw [hl] at h2; cases h2

theorem nameEvaluate_ok_range (out exp : Dict) (q : ℚ)
    (h : nameEvaluate out exp = .ok q) : 0 ≤ q ∧ q ≤ 1 := by
  unfold nameEvaluate at h
  rcases hl : lookupKey out "name" with _ | v0 <;> rw [hl] at h <;> simp only [] at h
  · injection h with h; subst h; norm_num
  · rcases hu : upperVal (if isFalsy v0 then Val.vstr "EMPTY" else v0) with e | x <;>
      rw [hu] at h <;> simp only [] at h
    · cases h
    · rcases he : lookupKey exp "name" with _ | w <;> rw [he] at h <;> simp only [] at h
      · cases h
      · rcases hw : upperVal w with e | y <;> rw [hw] at h <;> simp only [] at h
        · cases h
        · injection h with h
          subst h
          exact ⟨Difflib.ratioQ_nonneg x y, Difflib.ratioQ_le_one x y⟩

theorem companyEvaluate_ok_range (out exp : Dict) (q : ℚ)
    (h : companyEvaluate out exp = .ok q) : 0 ≤ q ∧ q ≤ 1 := by
  unfold companyEvaluate at h
  split at h
  · injection h with h; subst h; norm_num
  · rcases hu : upperVal (valAt out "company") with e | x <;> rw [hu] at h <;>
      simp only [] at h
    · cases h
    · rcases hv : upperVal (valAt exp "company") with e | y <;> rw [hv] at h <;>
        simp only [] at h
      · cases h
      · injection h with h
        subst h
        exact ⟨Difflib.ratioQ_nonneg x y, Difflib.ratioQ_le_one x y⟩

theorem addressEvaluate_ok_range (out exp : Dict) (q : ℚ)
    (h : addressEvaluate out exp = .ok q) : 0 ≤ q ∧ q ≤ 1 := by
  unfold addressEvaluate at h
  split at h
  · injection h with h; subst h; norm_num
  · rcases hu : upperVal (valAt out "address") with e | x <;> rw [hu] at h <;>
      simp only [] at h
    · cases h
    · rcases hv : upperVal (valAt exp "address") with e | y <;> rw [hv] at h <;>
        simp only [] at h
      · cases h
      · injection h with h
        subst h
        exact ⟨Difflib.ratioQ_nonneg x y, Difflib.ratioQ_le_one x y⟩

theorem dateEvaluate_ok_range (out exp : Dict) (q : ℚ)
    (h : dateEvaluate out exp = .ok q) : 0 ≤ q ∧ q ≤ 1 := by
  unfold dateEvaluate at h
  split at h
  · injection h with h; subst h; norm_num
  · rcases hE : dateValParse (valAt exp "date") with _ | ed <;> rw [hE] at h <;>
      simp only [] at h
    · injection h with h; subst h; norm_num
    · rcases hO : dateValParse (valAt out "date") with _ | od <;> rw [hO] at h <;>
        simp only [] at h
      · injection h with h; subst h; norm_num
      · split at h
        · injection h with h; subst h; norm_num
        · injection h with h; subst h; norm_num

theorem totalEvaluate_ok (out exp : Dict) (q : ℚ)
    (h : totalEvaluate out exp = .ok q) :
    0 ≤ q ∧ (0 ≤ cleanTotal (valAt exp "total") → q ≤ 1) := by
  unfold totalEvaluate at h
  split at h
  · injection h with h; subst h; norm_num
  · split at h
    · injection h with h; subst h; norm_num
    · rename_i hne
      rcases ho : floatOfVal (valAt out "total") with _ | o <;> rw [ho] at h <;>
        simp only [] at h
      · injection h with h; subst h; norm_num
      · split at h
        · injection h with h; subst h; norm_num
        · injection h with h
          subst h
          refine ⟨le_max_left 0 _, fun hnn => ?_⟩
          have hpos : 0 < cleanTotal (valAt exp "total") :=
            lt_of_le_of_ne hnn (fun hc => hne hc.symm)
          have habs : 0 ≤ |cleanTotal (valAt exp "total") - o| := abs_nonneg _
          have hdiv : 0 ≤ |cleanTotal (valAt exp "total") - o| /
              cleanTotal (valAt exp "total") := div_nonneg habs (le_of_lt hpos)
          refine max_le (by norm_num) (by linarith)

theorem dateEvaluate_total (out exp : Dict) : ∃ q, dateEvaluate out exp = .ok q := by
  unfold dateEvaluate
  split
  · exact ⟨0, rfl⟩
  · rcases hE : dateValParse (valAt exp "date") with _ | ed <;> simp only []
    · exact ⟨0, rfl⟩
    · rcases hO : dateValParse (valAt out "date") with _ | od <;> simp only []
      · exact ⟨0, rfl⟩
      · split
        · exact ⟨1, rfl⟩
        · exact ⟨0, rfl⟩

theorem totalEvaluate_total (out exp : Dict) : ∃ q, totalEvaluate out exp = .ok q := by
  unfold totalEvaluate
  split
  · exact ⟨0, rfl⟩
  · split
    · exact ⟨0, rfl⟩
    · rcases ho : floatOfVal (valAt out "total") with _ | o <;> simp only []
      · exact ⟨0, rfl⟩
      · split
        · exact ⟨1, rfl⟩
        · exact ⟨_, rfl⟩

theorem companyEvaluate_total (out exp : Dict)
    (h1 : TextOk (lookupKey out "company")) (h2 : TextOk (lookupKey exp "company")) :
    ∃ q, companyEvaluate out exp = .ok q := by
  unfold companyEvaluate
  split
  · exact ⟨0, rfl⟩
  · next hg =>
    simp only [Bool.or_eq_true, not_or, Bool.not_eq_true] at hg
    obtain ⟨s, hs⟩ := textOk_vstr h1 hg.1
    obtain ⟨t, ht⟩ := textOk_vstr h2 hg.2
    rw [show valAt out "company" = Val.vstr s from by unfold valAt; rw [hs]; rfl]
    rw [show valAt exp "company" = Val.vstr t from by unfold valAt; rw [ht]; rfl]
    exact ⟨_, rfl⟩

theorem addressEvaluate_total (out exp : Dict)
    (h1 : TextOk (lookupKey out "address")) (h2 : TextOk (lookupKey exp "address")) :
    ∃ q, addressEvaluate out exp = .ok q := by
  unfold addressEvaluate
  split
  · exact ⟨0, rfl⟩
  · next hg =>
    simp only [Bool.or_eq_true, not_or, Bool.not_eq_true] at hg
    obtain ⟨s, hs⟩ := textOk_vstr h1 hg.1
    obtain ⟨t, ht⟩ := textOk_vstr h2 hg.2
    rw [show valAt out "address" = Val.vstr s from by unfold valAt; rw [hs]; rfl]
    rw [show valAt exp "address" = Val.vstr t from by unfold valAt; rw [ht]; rfl]
    exact ⟨_, rfl⟩

theorem nameEvaluate_noKey (out exp : Dict) (h : lookupKey out "name" = none) :
    nameEvaluate out exp = .ok 0 := by
  unfold nameEvaluate
  rw [h]

theorem companyEvaluate_none (out exp : Dict)
    (h : isNoneAt out "company" = true ∨ isNoneAt exp "company" = true) :
    companyEvaluate out exp = .ok 0 := by
  unfold companyEvaluate
  rw [if_pos (Bool.or_eq_true _ _ |>.mpr h)]

theorem addressEvaluate_none (out exp : Dict)
    (h : isNoneAt out "address" = true ∨ isNoneAt exp "address" = true) :
    addressEvaluate out exp = .ok 0 := by
  unfold addressEvaluate
  rw [if_pos (Bool.or_eq_true _ _ |>.mpr h)]

theorem dateEvaluate_none (out exp : Dict)
    (h : isNoneAt out "date" = true ∨ isNoneAt exp "date" = true) :
    dateEvaluate out exp = .ok 0 := by
  unfold dateEvaluate
  rw [if_pos (Bool.or_eq_true _ _ |>.mpr h)]

theorem totalEvaluate_none (out exp : Dict)
    (h : isNoneAt out "total" = true ∨ isNoneAt exp "total" = true) :
    totalEvaluate out exp = .ok 0 := by
  unfold totalEvaluate
  rw [if_pos (Bool.or_eq_true _ _ |>.mpr h)]

/-- The two-string instance of `DateEvaluator.evaluate`, unfolded. -/
theorem dateEvaluate_strs (os es : String) :
    dateEvaluate [("date", Val.vstr os)] [("date", Val.vstr es)] =
      match dateParseL es.toList with
      | none => .ok 0
      | some ed =>
        match dateParseL os.toList with
        | none => .ok 0
        | some od =>
          if fmtDate od = fmtDate ed ∨ fmtDate od = swapDayMonthL (fmtDate ed) then
            .ok 1
          else .ok 0 := rfl

/-- What `DateEvaluator.evaluate` computes on two date strings: a binary
score that is 1 exactly when the output date equals the expected date or
its day/month-swapped triple. -/
theorem dateEval_characterization (es os : String) (r : ℚ)
    (h : dateEvaluate [("date", Val.vstr os)] [("date", Val.vstr es)] = .ok r) :
    (r = 0 ∨ r = 1) ∧
    ((dateParseL es.toList = none ∨ dateParseL os.toList = none) → r = 0) ∧
    (r = 1 ↔ ∃ ed od, dateParseL es.toList = some ed ∧ dateParseL os.toList = some od ∧
      (od = ed ∨ od = ⟨ed.year, ed.day, ed.month⟩)) := by
  rw [dateEvaluate_strs] at h
  rcases hE : dateParseL es.toList with _ | ed <;> rw [hE] at h <;> simp only [] at h
  · injection h with h
    subst h
    refine ⟨Or.inl rfl, fun _ => rfl, ?_, ?_⟩
    · intro h01; exact absurd h01 (by norm_num)
    · rintro ⟨ed, od, hhe, -, -⟩; cases hhe
  · rcases hO : dateParseL os.toList with _ | od <;> rw [hO] at h <;> simp only [] at h
    · injection h with h
      subst h
      refine ⟨Or.inl rfl, fun _ => rfl, ?_, ?_⟩
      · intro h01; exact absurd h01 (by norm_num)
      · rintro ⟨ed', od', -, hho, -⟩; cases hho
    · have hedv := dateParseL_validRange hE
      have hodv := dateParseL_validRange hO
      split at h
      · next hcond =>
        injection h with h
        subst h
        refine ⟨Or.inr rfl, ?_, ?_, ?_⟩
        · rintro (hx | hx) <;> cases hx
        · intro _
          refine ⟨ed, od, rfl, rfl, ?_⟩
          rcases hcond with hc | hc
          · exact Or.inl (fmt_inj hodv hedv hc)
          · rw [swap_fmt hedv] at hc
            exact Or.inr (fmt_inj hodv ⟨hedv.1, hedv.2.2, hedv.2.1⟩ hc)
        · intro _; rfl
      · next hcond =>
        injection h with h
        subst h
        refine ⟨Or.inl rfl, fun _ => rfl, ?_, ?_⟩
        · intro h01; exact absurd h01 (by norm_num)
        · rintro ⟨ed', od', he', ho', hor⟩
          injection he' with he'
          subst he'
          injection ho' with ho'
          subst ho'
          exfalso
          apply hcond
          rcases hor with h' | h'
          · exact Or.inl (by rw [h'])
          · right
            rw [swap_fmt hedv, h']

/-! ## The evaluation runner preserves input order -/

theorem runSlots_length (cases : List EvalCase) (extract : String → Dict) :
    ∀ (order : List Nat) (slots : List (Option Dict)),
      (runSlots cases extract order slots).length = slots.length := by
  intro order
  induction order with
  | nil => intro slots; rfl
  | cons i rest ih =>
    intro slots
    rw [show runSlots cases extract (i :: rest) slots =
        runSlots cases extract rest
          (slots.set i (some (extract ((cases.getD i ⟨"", "", []⟩).input)))) from rfl]
    rw [ih, List.length_set]

theorem runSlots_keeps (cases : List EvalCase) (extract : String → Dict) :
    ∀ (order : List Nat) (slots : List (Option Dict)) (i : Nat) (d : Dict),
      slots[i]? = some (some d) →
      ∃ d', (runSlots cases extract order slots)[i]? = some (some d') := by
  intro order
  induction order with
  | nil => intro slots i d h; exact ⟨d, h⟩
  | cons j rest ih =>
    intro slots i d h
    rw [show runSlots cases extract (j :: rest) slots =
        runSlots cases extract rest
          (slots.set j (some (extract ((cases.getD j ⟨"", "", []⟩).input)))) from rfl]
    by_cases hij : j = i
    · subst hij
      by_cases hlt : j < slots.length
      · exact ih _ j _ (List.getElem?_set_self hlt)
      · rw [List.set_eq_of_length_le (by omega)]
        exact ih _ j d h
    · exact ih _ i d (by rw [List.getElem?_set_ne hij]; exact h)

theorem runSlots_filled (cases : List EvalCase) (extract : String → Dict) :
    ∀ (order : List Nat) (slots : List (Option Dict)) (i : Nat),
      i ∈ order → i < slots.length →
      ∃ d, (runSlots cases extract order slots)[i]? = some (some d) := by
  intro order
  induction order with
  | nil => intro slots i hmem; exact absurd hmem (List.not_mem_nil i)
  | cons j rest ih =>
    intro slots i hmem hlen
    rw [show runSlots cases extract (j :: rest) slots =
        runSlots cases extract rest
          (slots.set j (some (extract ((cases.getD j ⟨"", "", []⟩).input)))) from rfl]
    by_cases hij : j = i
    · subst hij
      exact runSlots_keeps cases extract rest _ j _ (List.getElem?_set_self hlen)
    · rcases List.mem_cons.mp hmem with h | h
      · exact absurd h.symm hij
      · exact ih _ i h (by rw [List.length_set]; exact hlen)

/-! ## Concrete value computations for the claims -/

/-- The two-string instance of `TotalEvaluator.evaluate`, unfolded. -/
theorem totalEvaluate_strs (os es : String) :
    totalEvaluate [("total", Val.vstr os)] [("total", Val.vstr es)] =
      (if cleanTotal (Val.vstr es) = 0 then .ok 0
       else
        match pyFloat? os.toList with
        | none => .ok 0
        | some o =>
          if cleanTotal (Val.vstr es) = o then .ok 1
          else .ok (max 0 (1 - |cleanTotal (Val.vstr es) - o| /
            cleanTotal (Val.vstr es)))) := by
  unfold totalEvaluate
  rw [show (isNoneAt [("total", Val.vstr os)] "total" ||
      isNoneAt [("total", Val.vstr es)] "total") = false from rfl]
  rw [show valAt [("total", Val.vstr es)] "total" = Val.vstr es from rfl]
  rw [show valAt [("total", Val.vstr os)] "total" = Val.vstr os from rfl]
  rw [show floatOfVal (Val.vstr os) = pyFloat? os.toList from rfl]
  rw [if_neg Bool.false_ne_true]

theorem cleanTotal_neg10 : cleanTotal (Val.vstr "-10") = -10 := by
  rw [show cleanTotal (Val.vstr "-10") =
      (match pyFloat? (cleanChars "-10".toList) with | some q => q | none => 0) from rfl]
  rw [show pyFloat? (cleanChars "-10".toList) =
      some ((-1 : ℚ) * ((10 : Nat) : ℚ)) from rfl]
  show ((-1 : ℚ) * ((10 : Nat) : ℚ)) = -10
  norm_num

theorem cleanTotal_100 : cleanTotal (Val.vstr "100") = 100 := by
  rw [show cleanTotal (Val.vstr "100") =
      (match pyFloat? (cleanChars "100".toList) with | some q => q | none => 0) from rfl]
  rw [show pyFloat? (cleanChars "100".toList) =
      some ((1 : ℚ) * ((100 : Nat) : ℚ)) from rfl]
  show ((1 : ℚ) * ((100 : Nat) : ℚ)) = 100
  norm_num

theorem cleanTotal_1000 : cleanTotal (Val.vstr "1000") = 1000 := by
  rw [show cleanTotal (Val.vstr "1000") =
      (match pyFloat? (cleanChars "1000".toList) with | some q => q | none => 0) from rfl]
  rw [show pyFloat? (cleanChars "1000".toList) =
      some ((1 : ℚ) * ((1000 : Nat) : ℚ)) from rfl]
  show ((1 : ℚ) * ((1000 : Nat) : ℚ)) = 1000
  norm_num

theorem cleanTotal_dollar : cleanTotal (Val.vstr "$1,000.00") = 1000 := by
  rw [show cleanTotal (Val.vstr "$1,000.00") =
      (match pyFloat? (cleanChars "$1,000.00".toList) with
        | some q => q | none => 0) from rfl]
  rw [show pyFloat? (cleanChars "$1,000.00".toList) =
      some ((1 : ℚ) * (((1000 : Nat) : ℚ) + ((0 : Nat) : ℚ) / (10 : ℚ) ^ (2 : Nat)))
      from rfl]
  show ((1 : ℚ) * (((1000 : Nat) : ℚ) + ((0 : Nat) : ℚ) / (10 : ℚ) ^ (2 : Nat))) = 1000
  norm_num

/-- The spec's own numeric example: relative error 0.5 scores 0.5. -/
theorem totalEval_spec_example :
    totalEvaluate [("total", Val.vstr "150")] [("total", Val.vstr "100")] =
      .ok (1 / 2) := by
  rw [totalEvaluate_strs, cleanTotal_100]
  rw [if_neg (by norm_num)]
  rw [show pyFloat? "150".toList = some ((1 : ℚ) * ((150 : Nat) : ℚ)) from rfl]
  simp only []
  rw [show ((1 : ℚ) * ((150 : Nat) : ℚ)) = 150 from by norm_num]
  rw [if_neg (by norm_num)]
  congr 1
  rw [show ((100 : ℚ) - 150) = -50 from by norm_num]
  rw [abs_of_nonpos (show (-50 : ℚ) ≤ 0 from by norm_num)]
  rw [show (1 : ℚ) - -(-50) / 100 = 1 / 2 from by norm_num]
  exact max_eq_right (by norm_num)

/-! ## The claims -/

/-- C1, counterexample: TotalEvaluator's score is not always in [0,1].
With expected total "-10" and output total "-20" the code computes
`max(0, 1 - |−10 − (−20)| / (−10)) = max(0, 2) = 2`, because line 144
divides by the signed `expected_total`. -/
theorem C1_counterexample :
    totalEvaluate [("total", Val.vstr "-20")] [("total", Val.vstr "-10")] =
      Except.ok 2 ∧ ¬((2 : ℚ) ≤ 1) := by
  constructor
  · rw [totalEvaluate_strs, cleanTotal_neg10]
    rw [if_neg (by norm_num)]
    rw [show pyFloat? "-20".toList = some ((-1 : ℚ) * ((20 : Nat) : ℚ)) from rfl]
    simp only []
    rw [show ((-1 : ℚ) * ((20 : Nat) : ℚ)) = -20 from by norm_num]
    rw [if_neg (by norm_num)]
    congr 1
    rw [show ((-10 : ℚ) - -20) = 10 from by norm_num]
    rw [abs_of_nonneg (show (0 : ℚ) ≤ 10 from by norm_num)]
    rw [show (1 : ℚ) - 10 / (-10) = 2 from by norm_num]
    exact max_eq_right (by norm_num)
  · norm_num

/-- C1 (amended): every score returned by NameEvaluator, CompanyEvaluator,
AddressEvaluator and DateEvaluator lies in [0,1]; TotalEvaluator's score is
always nonnegative and lies in [0,1] provided the cleaned expected total is
nonnegative (a negative cleaned expected total can push the score above 1,
as the counterexample shows). -/
theorem C1_amended (out exp : Dict) (q : ℚ) :
    ((nameEvaluate out exp = .ok q ∨ companyEvaluate out exp = .ok q ∨
      addressEvaluate out exp = .ok q ∨ dateEvaluate out exp = .ok q) →
      0 ≤ q ∧ q ≤ 1) ∧
    (totalEvaluate out exp = .ok q →
      0 ≤ q ∧ (0 ≤ cleanTotal (valAt exp "total") → q ≤ 1)) := by
  constructor
  · rintro (h | h | h | h)
    exacts [nameEvaluate_ok_range _ _ _ h, companyEvaluate_ok_range _ _ _ h,
      addressEvaluate_ok_range _ _ _ h, dateEvaluate_ok_range _ _ _ h]
  · exact totalEvaluate_ok out exp q

theorem C1_amended_witness : 0 ≤ (1 : ℚ) ∧ (1 : ℚ) ≤ 1 :=
  (C1_amended [("name", Val.vstr "AB")] [("name", Val.vstr "AB")] 1).1
    (Or.inl (by
      rw [show nameEvaluate [("name", Val.vstr "AB")] [("name", Val.vstr "AB")] =
          .ok (Difflib.ratioQ (upperL "AB") (upperL "AB")) from rfl]
      rw [Difflib.ratioQ_self]))

/-- C2, counterexample: NameEvaluator is not total in the expected-output
mapping.  `ctx.expected_output['name']` is outside the `try`, so an
expected mapping without a `name` key raises KeyError instead of scoring
0.0. -/
theorem C2_counterexample :
    nameEvaluate [("name", Val.vstr "A")] [] = .error PyErr.keyError ∧
    ∀ q : ℚ, nameEvaluate [("name", Val.vstr "A")] [] ≠ .ok q := by
  refine ⟨rfl, fun q h => ?_⟩
  rw [show nameEvaluate [("name", Val.vstr "A")] [] =
      Except.error PyErr.keyError from rfl] at h
  cases h

/-- C2 (amended): DateEvaluator and TotalEvaluator never raise on any
mappings; CompanyEvaluator and AddressEvaluator never raise provided the
present field values are strings (a non-string value makes `.upper()`
raise); NameEvaluator returns 0.0 when the output lacks `name` but raises
when the expected mapping lacks it; every guarded missing/None field
yields score 0.0. -/
theorem C2_amended (out exp : Dict) :
    (∃ q, dateEvaluate out exp = .ok q) ∧
    (∃ q, totalEvaluate out exp = .ok q) ∧
    (TextOk (lookupKey out "company") → TextOk (lookupKey exp "company") →
      ∃ q, companyEvaluate out exp = .ok q) ∧
    (TextOk (lookupKey out "address") → TextOk (lookupKey exp "address") →
      ∃ q, addressEvaluate out exp = .ok q) ∧
    (lookupKey out "name" = none → nameEvaluate out exp = .ok 0) ∧
    ((isNoneAt out "company" = true ∨ isNoneAt exp "company" = true) →
      companyEvaluate out exp = .ok 0) ∧
    ((isNoneAt out "address" = true ∨ isNoneAt exp "address" = true) →
      addressEvaluate out exp = .ok 0) ∧
    ((isNoneAt out "date" = true ∨ isNoneAt exp "date" = true) →
      dateEvaluate out exp = .ok 0) ∧
    ((isNoneAt out "total" = true ∨ isNoneAt exp "total" = true) →
      totalEvaluate out exp = .ok 0) :=
  ⟨dateEvaluate_total out exp, totalEvaluate_total out exp,
    companyEvaluate_total out exp, addressEvaluate_total out exp,
    nameEvaluate_noKey out exp, companyEvaluate_none out exp,
    addressEvaluate_none out exp, dateEvaluate_none out exp,
    totalEvaluate_none out exp⟩

theorem C2_amended_witness :
    (∃ q, companyEvaluate [("company", Val.vstr "AB")]
      [("company", Val.vstr "CD")] = .ok q) ∧
    nameEvaluate [] [("name", Val.vstr "X")] = .ok 0 :=
  ⟨(C2_amended [("company", Val.vstr "AB")] [("company", Val.vstr "CD")]).2.2.1
      True.intro True.intro,
    (C2_amended [] [("name", Val.vstr "X")]).2.2.2.2.1 rfl⟩

/-- C3, counterexample: a parsed JSON response without a `data` key is NOT
converted to the `{error: reason}` sentinel — `res.get('data', {})`
returns the empty mapping, which carries no `error` key. -/
theorem C3_counterexample :
    extractResult (Response.json none) = .ok [] ∧
    lookupKey [] "error" = none ∧ ([] : Dict) ≠ errorSentinel :=
  ⟨rfl, rfl, by decide⟩

/-- C3 (amended): the client converts a non-JSON body to the sentinel
`{error: "Unable to parse"}` and never raises once a response was
obtained; a JSON body without `data` yields the empty mapping (not the
sentinel); a transport failure while issuing the request is outside the
`try` and propagates. -/
theorem C3_amended (r : Response) (h : r ≠ Response.transportError) :
    (∃ d, extractResult r = .ok d) ∧
    extractResult Response.invalidJson = .ok errorSentinel ∧
    extractResult (Response.json none) = .ok [] ∧
    extractResult Response.transportError = .error PyErr.connectionError := by
  refine ⟨?_, rfl, rfl, rfl⟩
  cases r with
  | transportError => exact absurd rfl h
  | invalidJson => exact ⟨errorSentinel, rfl⟩
  | json d =>
    cases d with
    | none => exact ⟨[], rfl⟩
    | some d => exact ⟨d, rfl⟩

theorem C3_amended_witness :
    (∃ d, extractResult Response.invalidJson = .ok d) ∧
    extractResult Response.invalidJson = .ok errorSentinel ∧
    extractResult (Response.json none) = .ok [] ∧
    extractResult Response.transportError = .error PyErr.connectionError :=
  C3_amended Response.invalidJson (by decide)

/-- C4, counterexample: the relative-error branch divides by the signed
expected value, not `|expected|`.  With expected "-10" and actual "-5" the
code returns `max(0, 1 - 5/(-10)) = 3/2`, while the claim's formula
`max(0, 1 - |expected-actual|/|expected|)` gives 1/2. -/
theorem C4_counterexample :
    totalEvaluate [("total", Val.vstr "-5")] [("total", Val.vstr "-10")] =
      .ok (3 / 2) ∧
    (3 / 2 : ℚ) ≠ max 0 (1 - |(-10 : ℚ) - (-5)| / |(-10 : ℚ)|) := by
  constructor
  · rw [totalEvaluate_strs, cleanTotal_neg10]
    rw [if_neg (by norm_num)]
    rw [show pyFloat? "-5".toList = some ((-1 : ℚ) * ((5 : Nat) : ℚ)) from rfl]
    simp only []
    rw [show ((-1 : ℚ) * ((5 : Nat) : ℚ)) = -5 from by norm_num]
    rw [if_neg (by norm_num)]
    congr 1
    rw [show ((-10 : ℚ) - -5) = -5 from by norm_num]
    rw [abs_of_nonpos (show (-5 : ℚ) ≤ 0 from by norm_num)]
    rw [show (1 : ℚ) - -(-5) / (-10) = 3 / 2 from by norm_num]
    exact max_eq_right (by norm_num)
  · rw [show ((-10 : ℚ) - (-5)) = -5 from by norm_num]
    rw [abs_of_nonpos (show (-5 : ℚ) ≤ 0 from by norm_num)]
    rw [abs_of_nonpos (show (-10 : ℚ) ≤ 0 from by norm_num)]
    rw [show (1 : ℚ) - -(-5) / -(-10) = 1 / 2 from by norm_num]
    rw [max_eq_right (show (0 : ℚ) ≤ 1 / 2 from by norm_num)]
    norm_num

/-- C4 (amended): NumericToleranceSimilarity returns 0.0 when the cleaned
expected value is zero or the actual side fails to parse, 1.0 on exact
equality, and otherwise `max(0, 1 - |expected-actual| / expected)` — the
division is by the signed expected value; the result is never negative. -/
theorem C4_amended (os es : String) (r : ℚ)
    (h : totalEvaluate [("total", Val.vstr os)] [("total", Val.vstr es)] = .ok r) :
    0 ≤ r ∧
    (cleanTotal (Val.vstr es) = 0 → r = 0) ∧
    (pyFloat? os.toList = none → r = 0) ∧
    (∀ o, pyFloat? os.toList = some o → cleanTotal (Val.vstr es) ≠ 0 →
      (cleanTotal (Val.vstr es) = o → r = 1) ∧
      (cleanTotal (Val.vstr es) ≠ o →
        r = max 0 (1 - |cleanTotal (Val.vstr es) - o| / cleanTotal (Val.vstr es)))) := by
  have h0 : 0 ≤ r := (totalEvaluate_ok _ _ _ h).1
  rw [totalEvaluate_strs] at h
  refine ⟨h0, ?_⟩
  split at h
  · next he =>
    injection h with h
    subst h
    exact ⟨fun _ => rfl, fun _ => rfl, fun o ho hne => absurd he hne⟩
  · next hne0 =>
    rcases ho' : pyFloat? os.toList with _ | o <;> rw [ho'] at h <;> simp only [] at h
    · injection h with h
      subst h
      exact ⟨fun _ => rfl, fun _ => rfl, fun o ho => Option.noConfusion ho⟩
    · refine ⟨fun he => absurd he hne0, fun hn => Option.noConfusion hn,
        fun o' ho'' hne => ?_⟩
      injection ho'' with ho''
      subst ho''
      split at h
      · next heq =>
        injection h with h
        subst h
        exact ⟨fun _ => rfl, fun hno => absurd heq hno⟩
      · next hneq =>
        injection h with h
        subst h
        exact ⟨fun heq => absurd heq hneq, fun _ => rfl⟩

theorem C4_amended_witness : 0 ≤ (1 / 2 : ℚ) :=
  (C4_amended "150" "100" (1 / 2) totalEval_spec_example).1

/-- C5: DateEvaluator is a binary metric: it returns only 0.0 or 1.0,
returns 0.0 when parsing fails on either side, and returns 1.0 exactly
when the output date equals the expected date, or equals the expected
date with day and month swapped (which, rendering being canonical,
requires the swapped triple to be a parseable calendar date). -/
theorem C5_date_similarity (es os : String) (r : ℚ)
    (h : dateEvaluate [("date", Val.vstr os)] [("date", Val.vstr es)] = .ok r) :
    (r = 0 ∨ r = 1) ∧
    ((dateParseL es.toList = none ∨ dateParseL os.toList = none) → r = 0) ∧
    (r = 1 ↔ ∃ ed od, dateParseL es.toList = some ed ∧
      dateParseL os.toList = some od ∧
      (od = ed ∨ od = ⟨ed.year, ed.day, ed.month⟩)) :=
  dateEval_characterization es os r h

theorem C5_witness :
    ((1 : ℚ) = 0 ∨ (1 : ℚ) = 1) ∧ ((0 : ℚ) = 0 ∨ (0 : ℚ) = 1) :=
  ⟨(C5_date_similarity "2024-03-05" "2024-05-03" 1 rfl).1,
    (C5_date_similarity "2024-03-05" "2024-03-06" 0 rfl).1⟩

/-- C6, counterexample: currency/separator stripping is applied only to
the EXPECTED side.  With expected "1000" and actual "$1,000" the claim
predicts a score of 1.0, but `float('$1,000')` raises ValueError and the
evaluator returns 0.0. -/
theorem C6_counterexample :
    totalEvaluate [("total", Val.vstr "$1,000")] [("total", Val.vstr "1000")] =
      .ok 0 ∧ (0 : ℚ) ≠ 1 := by
  constructor
  · rw [totalEvaluate_strs, cleanTotal_1000]
    rw [if_neg (by norm_num)]
    rw [show pyFloat? "$1,000".toList = none from rfl]
  · norm_num

/-- C6 (amended): `_clean_total` strips currency symbols and separators on
the expected side only; the actual side is parsed by a bare `float()`.
The claim's example "$1,000.00" (expected) vs "1000" (actual) still scores
1.0, while the mirrored pair scores 0.0. -/
theorem C6_amended :
    totalEvaluate [("total", Val.vstr "1000")] [("total", Val.vstr "$1,000.00")] =
      .ok 1 ∧
    totalEvaluate [("total", Val.vstr "$1,000")] [("total", Val.vstr "1000")] =
      .ok 0 := by
  constructor
  · rw [totalEvaluate_strs, cleanTotal_dollar]
    rw [if_neg (by norm_num)]
    rw [show pyFloat? "1000".toList = some ((1 : ℚ) * ((1000 : Nat) : ℚ)) from rfl]
    simp only []
    rw [show ((1 : ℚ) * ((1000 : Nat) : ℚ)) = 1000 from by norm_num]
    rw [if_pos rfl]
  · rw [totalEvaluate_strs, cleanTotal_1000]
    rw [if_neg (by norm_num)]
    rw [show pyFloat? "$1,000".toList = none from rfl]

/-- C7, counterexample: the sequence-matching ratio is NOT symmetric.
`ratio("ABA", "BABBA") = 3/4` (blocks "AB" and "A") but
`ratio("BABBA", "ABA") = 1/2` (single block "AB"). -/
theorem C7_counterexample :
    TextSimilarity "ABA" "BABBA" = 3 / 4 ∧
    TextSimilarity "BABBA" "ABA" = 1 / 2 ∧
    TextSimilarity "ABA" "BABBA" ≠ TextSimilarity "BABBA" "ABA" := by
  have h1 : TextSimilarity "ABA" "BABBA" = 3 / 4 := by
    have hm : Difflib.totalMatches (upperL "ABA") (upperL "BABBA") = 3 := by decide
    have hl1 : (upperL "ABA").length = 3 := by decide
    have hl2 : (upperL "BABBA").length = 5 := by decide
    unfold TextSimilarity Difflib.ratioQ
    rw [hm, hl1, hl2]
    norm_num
  have h2 : TextSimilarity "BABBA" "ABA" = 1 / 2 := by
    have hm : Difflib.totalMatches (upperL "BABBA") (upperL "ABA") = 2 := by decide
    have hl1 : (upperL "BABBA").length = 5 := by decide
    have hl2 : (upperL "ABA").length = 3 := by decide
    unfold TextSimilarity Difflib.ratioQ
    rw [hm, hl1, hl2]
    norm_num
  exact ⟨h1, h2, by rw [h1, h2]; norm_num⟩

/-- C7 (amended): reflexivity and the unit-interval bound hold for every
pair of strings (`TextSimilarity(a,a) = 1`, result in [0,1]); symmetry
fails in general, as the counterexample shows. -/
theorem C7_amended (a b : String) :
    TextSimilarity a a = 1 ∧ 0 ≤ TextSimilarity a b ∧ TextSimilarity a b ≤ 1 :=
  ⟨Difflib.ratioQ_self _, Difflib.ratioQ_nonneg _ _, Difflib.ratioQ_le_one _ _⟩

/-- C8, counterexample: only NameEvaluator substitutes the sentinel.
AddressEvaluator compares the present-but-empty candidate string
directly: against expected "EMPTY" it scores exactly 0.0, whereas the
claimed sentinel substitution would give ratio("EMPTY","EMPTY") = 1. -/
theorem C8_counterexample :
    addressEvaluate [("address", Val.vstr "")] [("address", Val.vstr "EMPTY")] =
      .ok 0 ∧
    Difflib.ratioQ (upperL "EMPTY") (upperL "EMPTY") = 1 := by
  constructor
  · rw [show addressEvaluate [("address", Val.vstr "")]
        [("address", Val.vstr "EMPTY")] =
        .ok (Difflib.ratioQ (List.map Char.toUpper "".toList)
          (List.map Char.toUpper "EMPTY".toList)) from rfl]
    congr 1
    have hm : Difflib.totalMatches (List.map Char.toUpper "".toList)
        (List.map Char.toUpper "EMPTY".toList) = 0 := by decide
    have hl1 : (List.map Char.toUpper "".toList).length = 0 := by decide
    have hl2 : (List.map Char.toUpper "EMPTY".toList).length = 5 := by decide
    unfold Difflib.ratioQ
    rw [hm, hl1, hl2]
    norm_num
  · exact Difflib.ratioQ_self _

/-- C8 (amended): the sentinel substitution exists only in NameEvaluator:
a falsy output name is replaced by "EMPTY" before comparison;
AddressEvaluator and CompanyEvaluator compare the empty string as-is. -/
theorem C8_amended (exp : Dict) (w : String)
    (h : lookupKey exp "name" = some (Val.vstr w)) :
    nameEvaluate [("name", Val.vstr "")] exp =
      .ok (Difflib.ratioQ (upperL "EMPTY") (upperL w)) ∧
    addressEvaluate [("address", Val.vstr "")] [("address", Val.vstr w)] =
      .ok (Difflib.ratioQ [] (upperL w)) ∧
    companyEvaluate [("company", Val.vstr "")] [("company", Val.vstr w)] =
      .ok (Difflib.ratioQ [] (upperL w)) := by
  refine ⟨?_, rfl, rfl⟩
  rw [show nameEvaluate [("name", Val.vstr "")] exp =
      (match lookupKey exp "name" with
       | none => Except.error PyErr.keyError
       | some w' =>
         match upperVal w' with
         | .error e => .error e
         | .ok y => .ok (Difflib.ratioQ (upperL "EMPTY") y)) from rfl]
  rw [h]
  rfl

theorem C8_amended_witness :
    nameEvaluate [("name", Val.vstr "")] [("name", Val.vstr "EMPTY")] =
      .ok (Difflib.ratioQ (upperL "EMPTY") (upperL "EMPTY")) ∧
    addressEvaluate [("address", Val.vstr "")] [("address", Val.vstr "EMPTY")] =
      .ok (Difflib.ratioQ [] (upperL "EMPTY")) ∧
    companyEvaluate [("company", Val.vstr "")] [("company", Val.vstr "EMPTY")] =
      .ok (Difflib.ratioQ [] (upperL "EMPTY")) :=
  C8_amended [("name", Val.vstr "EMPTY")] "EMPTY" rfl

/-- C9: for every completion order of the concurrent extraction calls — a
permutation of the case positions — the report lists the cases in input
order, with every slot filled. -/
theorem C9_report_order (cases : List EvalCase) (extract : String → Dict)
    (order : List Nat) (h : order.Perm (List.range cases.length)) :
    (runReport cases extract order).map Prod.fst = cases ∧
    ∀ i < cases.length, ∃ d,
      (runSlots cases extract order (List.replicate cases.length none))[i]? =
        some (some d) := by
  constructor
  · unfold runReport
    apply List.map_fst_zip
    rw [runSlots_length, List.length_replicate]
  · intro i hi
    apply runSlots_filled
    · exact h.mem_iff.mpr (List.mem_range.mpr hi)
    · rw [List.length_replicate]; exact hi

theorem C9_witness :
    (runReport [⟨"a", "ia", []⟩, ⟨"b", "ib", []⟩] (fun _ => []) [1, 0]).map
      Prod.fst = [⟨"a", "ia", []⟩, ⟨"b", "ib", []⟩] :=
  (C9_report_order [⟨"a", "ia", []⟩, ⟨"b", "ib", []⟩] (fun _ => []) [1, 0]
    (by decide)).1

/-- C10: when the expected date's day exceeds 12, the textually swapped
string `YYYY-DD-MM` has a middle component no parsed output date can
render (months stop at 12), so the evaluator scores 1.0 exactly on an
exact canonical match. -/
theorem C10_no_swap_match (es os : String) (ed od : Date) (r : ℚ)
    (hE : dateParseL es.toList = some ed) (hd : 12 < ed.day)
    (hO : dateParseL os.toList = some od)
    (h : dateEvaluate [("date", Val.vstr os)] [("date", Val.vstr es)] = .ok r) :
    r = 1 ↔ od = ed := by
  obtain ⟨-, -, hiff⟩ := dateEval_characterization es os r h
  rw [hiff]
  constructor
  · rintro ⟨ed', od', he', ho', hor⟩
    rw [hE] at he'
    injection he' with he'
    rw [hO] at ho'
    injection ho' with ho'
    subst he'
    subst ho'
    rcases hor with h' | h'
    · exact h'
    · exfalso
      have hm : od.month ≤ 12 := (dateParseL_valid hO).2.2.2.1
      rw [h'] at hm
      have hm' : ed.day ≤ 12 := hm
      omega
  · intro h'
    exact ⟨ed, od, hE, hO, Or.inl h'⟩

theorem C10_witness :
    ((1 : ℚ) = 1 ↔ (⟨2024, 3, 25⟩ : Date) = ⟨2024, 3, 25⟩) :=
  C10_no_swap_match "2024-03-25" "2024-03-25" ⟨2024, 3, 25⟩ ⟨2024, 3, 25⟩ 1
    (by decide) (by decide) (by decide) rfl

end AxiaEvals
